import Mathlib

/-!
Verification of the Genomic-Region-Overlap-Engine repository.

Shallow embedding of the three Python source files:
  src/backend/main.py    (streaming overlap scanner and prune-then-stream orchestrator)
  src/data/preprocess.py (boundary index builder)
  src/data/indexer.py    (subset indexer with reservoir sampling)
plus the Interval Merge Calculator, which the specification describes but which is
not present under src/ (it is modelled from the specification text, see below).

String primitives of Python (strip, split, startswith, lower, replace, int) are
embedded as list-of-character recursions so that all definitions evaluate inside
the kernel.  Numeric parsing models int() on plain optionally signed decimal
numerals; network effects are modelled by passing the fetch outcome (error, or an
HTTP status plus the decompressed lines) as an explicit argument.
-/

/-- Embedding of Python str.strip(): drop whitespace from both ends. -/
def pyStrip (s : String) : String :=
  String.mk (((s.data.dropWhile Char.isWhitespace).reverse.dropWhile Char.isWhitespace).reverse)

/-- Embedding of Python str.split with a single tab separator. -/
def splitTabs : List Char → List (List Char)
  | [] => [[]]
  | '\t' :: rest => [] :: splitTabs rest
  | c :: rest =>
    match splitTabs rest with
    | [] => [[c]]
    | f :: fs => (c :: f) :: fs

/-- Embedding of line.strip().split of a tab-separated line into its fields. -/
def splitFields (line : String) : List String :=
  (splitTabs (pyStrip line).data).map String.mk

/-- Embedding of Python str.startswith for a single literal. -/
def strStartsWith (s pre : String) : Bool :=
  pre.data.isPrefixOf s.data

/-- Helper for the embedding of int(): value of a nonempty all-digit string. -/
def digitsValAux (acc : Nat) : List Char → Option Nat
  | [] => some acc
  | c :: rest => if c.isDigit then digitsValAux (acc * 10 + (c.toNat - 48)) rest else none

/-- Helper for the embedding of int(): digits of a numeral, none when empty or non-digit. -/
def digitsVal : List Char → Option Nat
  | [] => none
  | cs => digitsValAux 0 cs

/-- Embedding of Python int() on a string: optional sign followed by decimal digits;
any other shape raises ValueError, modelled as none. -/
def pyInt (s : String) : Option Int :=
  match s.data with
  | '-' :: rest => (digitsVal rest).map (fun n => -(n : Int))
  | '+' :: rest => (digitsVal rest).map (fun n => (n : Int))
  | cs => (digitsVal cs).map (fun n => (n : Int))

/-- Embedding of Python str.replace for the literal pattern chr with the empty
replacement: remove every non-overlapping occurrence of the three characters,
scanning left to right.  Case sensitive, exactly as str.replace is. -/
def stripChrList : List Char → List Char
  | 'c' :: 'h' :: 'r' :: rest => stripChrList rest
  | c :: rest => c :: stripChrList rest
  | [] => []

/-- Backend chromosome normalization, src/backend/main.py lines 49 and 69:
s.lower().replace(chr-literal, empty). -/
def normChrQuery (s : String) : String :=
  String.mk (stripChrList (s.data.map Char.toLower))

/-- Builder chromosome key, src/data/preprocess.py line 52:
fields[col].replace(chr-literal, empty) with NO lowercasing. -/
def builderNormChr (s : String) : String :=
  String.mk (stripChrList s.data)

/-! Scanner side, src/backend/main.py. -/

/-- Header test of the scanner loop, main.py line 63:
line.startswith of the tuple of hash, track, browser. -/
def isScannerHeader (line : String) : Bool :=
  strStartsWith line "#" || strStartsWith line "track" || strStartsWith line "browser"

/-- check_overlap of main.py lines 42 to 44: half-open range intersection. -/
def check_overlap (q_start q_end t_start t_end : Int) : Bool :=
  decide (q_start < t_end) && decide (t_start < q_end)

/-- One catalog track as used by main.py: identifier, track_name, optional assay
(track_info.get with default), and the remote file url. -/
structure Track where
  identifier : String
  track_name : String
  assay : Option String
  processed_file_download_url : String
deriving DecidableEq, Repr

/-- One matched region appended by the scanner, main.py lines 79 to 84. -/
structure Region where
  chrom : String
  start : Int
  stop : Int
  extra : List String
deriving DecidableEq, Repr

/-- The non-null scanner result, main.py lines 92 to 97. -/
structure ScanResult where
  track_name : String
  assay : String
  overlap_count : Nat
  results : List Region
deriving DecidableEq, Repr

/-- Outcome of the network fetch for one track: either an exception anywhere in the
try block (network error, timeout, decompression failure), or an HTTP status code
together with the decompressed lines of the file. -/
inductive FetchOutcome where
  | netError : FetchOutcome
  | response : Nat → List String → FetchOutcome
deriving DecidableEq, Repr

/-- Pair bookkeeping for the scan loop: one more line was examined. -/
def addExamined (p : List Region × Nat) : List Region × Nat :=
  (p.1, p.2 + 1)

/-- Region record built at main.py lines 79 to 84: raw chromosome field, parsed
coordinates, and fields[3:6] as extra annotations. -/
def mkRegion (line : String) (t_start t_end : Int) : Region :=
  ⟨(splitFields line).getD 0 "", t_start, t_end, ((splitFields line).drop 3).take 3⟩

/-- The scan loop of fetch_and_parse_stream, main.py lines 60 to 87.
Arguments: normalized query chromosome, query start and end, current enumerate
index, accumulated matches, remaining lines.  Returns the accumulated matches
together with the number of lines examined past the 20000 guard. -/
def scanLoop (normq : String) (qs qe : Int) : Nat → List Region → List String → List Region × Nat
  | _, acc, [] => (acc, 0)
  | i, acc, line :: rest =>
    if 20000 < i then (acc, 0)
    else if isScannerHeader line then addExamined (scanLoop normq qs qe (i + 1) acc rest)
    else if (splitFields line).length < 3 then addExamined (scanLoop normq qs qe (i + 1) acc rest)
    else if normChrQuery ((splitFields line).getD 0 "") ≠ normq then
      addExamined (scanLoop normq qs qe (i + 1) acc rest)
    else
      match pyInt ((splitFields line).getD 1 ""), pyInt ((splitFields line).getD 2 "") with
      | some t_start, some t_end =>
        if qe < t_start then (acc, 1)
        else if check_overlap qs qe t_start t_end then
          if 10 ≤ acc.length + 1 then (acc ++ [mkRegion line t_start t_end], 1)
          else addExamined (scanLoop normq qs qe (i + 1) (acc ++ [mkRegion line t_start t_end]) rest)
        else addExamined (scanLoop normq qs qe (i + 1) acc rest)
      | _, _ => addExamined (scanLoop normq qs qe (i + 1) acc rest)

/-- fetch_and_parse_stream, main.py lines 46 to 99.  The fetch outcome is passed
explicitly; a raised exception anywhere in the try block is the netError case. -/
def fetch_and_parse_stream (track : Track) (query_chr : String) (q_start q_end : Int)
    (outcome : FetchOutcome) : Option ScanResult :=
  match outcome with
  | FetchOutcome.netError => none
  | FetchOutcome.response status lines =>
    if status ≠ 200 then none
    else
      match (scanLoop (normChrQuery query_chr) q_start q_end 0 [] lines).1 with
      | [] => none
      | r :: rs => some ⟨track.track_name, track.assay.getD "N/A", (r :: rs).length, r :: rs⟩

/-! Orchestrator, src/backend/main.py find_overlaps (lines 101 to 139). -/

/-- Per-chromosome [min, max] entries of one track in the boundary index document. -/
abbrev ChromBounds := List (String × (Int × Int))

/-- The persisted boundary index: track id to its per-chromosome bounds. -/
abbrev BoundaryIndex := List (String × ChromBounds)

/-- The pruning decision of find_overlaps, main.py lines 110 to 118: keep a track
with no boundary entry; drop a track whose entry lacks the normalized query
chromosome; otherwise drop exactly when end < t_min or start > t_max. -/
def keepTrack (bi : BoundaryIndex) (norm_chr : String) (q_start q_end : Int) (tid : String) : Bool :=
  match List.lookup tid bi with
  | none => true
  | some bounds =>
    match List.lookup norm_chr bounds with
    | none => false
    | some (t_min, t_max) => !(decide (q_end < t_min) || decide (q_start > t_max))

/-- The candidate-collection loop of find_overlaps, main.py lines 107 to 122:
append each kept track and stop as soon as the list length reaches maxTracks. -/
def candLoop (bi : BoundaryIndex) (norm_chr : String) (q_start q_end : Int) (maxTracks : Nat) :
    List Track → List Track → List Track
  | acc, [] => acc
  | acc, t :: rest =>
    if keepTrack bi norm_chr q_start q_end t.identifier then
      if maxTracks ≤ acc.length + 1 then acc ++ [t]
      else candLoop bi norm_chr q_start q_end maxTracks (acc ++ [t]) rest
    else candLoop bi norm_chr q_start q_end maxTracks acc rest

/-- The JSON object returned by find_overlaps, main.py lines 134 to 139. -/
structure OverlapResponse where
  query_chr : String
  query_start : Int
  query_end : Int
  tracks_indexed_as_candidates : Nat
  total_tracks_found : Nat
  results : List ScanResult
deriving DecidableEq, Repr

/-- find_overlaps, main.py lines 101 to 139: prune the catalog with the boundary
index, dispatch the scanner over every candidate (results are collected in
submission order and null results dropped), and build the response.  The fetch
argument supplies the per-url network outcome. -/
def find_overlaps (bi : BoundaryIndex) (meta : List Track) (fetch : String → FetchOutcome)
    (chr : String) (q_start q_end : Int) (maxTracks : Nat) : OverlapResponse :=
  let candidates := candLoop bi (normChrQuery chr) q_start q_end maxTracks [] meta
  let final := candidates.filterMap
    (fun t => fetch_and_parse_stream t chr q_start q_end (fetch t.processed_file_download_url))
  ⟨chr, q_start, q_end, candidates.length, final.length, final⟩

/-! Boundary index builder, src/data/preprocess.py get_track_bounds (lines 32 to 58). -/

/-- Header test of the builder, preprocess.py line 46. -/
def isBoundsHeader (line : String) : Bool :=
  strStartsWith line "#" || strStartsWith line "track" || strStartsWith line "browser" ||
    strStartsWith line "<!DOCTYPE"

/-- Line scan of get_track_bounds: first data row with enough fields yields the
builder-normalized chromosome and parsed start; a ValueError from int() aborts the
whole function (the except clause returns None), unlike the scanner which skips. -/
def boundsLoop (cIdx sIdx eIdx : Nat) : List String → Option (String × Int)
  | [] => none
  | line :: rest =>
    if isBoundsHeader line then boundsLoop cIdx sIdx eIdx rest
    else
      if (splitFields line).length ≤ max cIdx (max sIdx eIdx) then boundsLoop cIdx sIdx eIdx rest
      else
        match pyInt ((splitFields line).getD sIdx "") with
        | none => none
        | some v => some (builderNormChr ((splitFields line).getD cIdx ""), v)

/-- get_track_bounds, preprocess.py lines 32 to 58: record the first chromosome and
its start, extended by the fixed 10,000,000 window. -/
def get_track_bounds (cIdx sIdx eIdx : Nat) (identifier : String) (lines : List String) :
    Option (String × ChromBounds) :=
  match boundsLoop cIdx sIdx eIdx lines with
  | none => none
  | some (ch, v) => some (identifier, [(ch, (v, v + 10000000))])

/-! Subset indexer, src/data/indexer.py. -/

/-- RESERVOIR_SIZE of indexer.py line 29. -/
def RESERVOIR_SIZE : Nat := 1000

/-- Header test of the indexer loop, indexer.py line 46. -/
def isIndexerHeader (line : String) : Bool :=
  strStartsWith line "#" || strStartsWith line "track"

/-- The sampling loop of process_track, indexer.py lines 45 to 55.  The random
source g maps the enumerate index of a line to the value randint produced for it;
a faithful draw satisfies g i ≤ i.  The second component records, for every line
on which randint was called, the upper bound i that was passed to it. -/
def reservoirLoop (g : Nat → Nat) : Nat → List String → List Nat → List String →
    List String × List Nat
  | _, res, tr, [] => (res, tr)
  | i, res, tr, line :: rest =>
    if isIndexerHeader line then reservoirLoop g (i + 1) res tr rest
    else if res.length < RESERVOIR_SIZE then reservoirLoop g (i + 1) (res ++ [line]) tr rest
    else if g i < RESERVOIR_SIZE then reservoirLoop g (i + 1) (res.set (g i) line) (tr ++ [i]) rest
    else reservoirLoop g (i + 1) res (tr ++ [i]) rest

/-- Parsing of one sampled reservoir line, indexer.py lines 59 to 71: skip the line
when it has too few fields or a coordinate fails int(); otherwise keep the raw
chromosome field and both parsed coordinates (the denormalized metadata strings are
constant per track and elided). -/
def parseSampledLine (cIdx sIdx eIdx : Nat) (line : String) : Option (String × Int × Int) :=
  if (splitFields line).length ≤ max cIdx (max sIdx eIdx) then none
  else
    match pyInt ((splitFields line).getD sIdx ""), pyInt ((splitFields line).getD eIdx "") with
    | some a, some b => some ((splitFields line).getD cIdx "", a, b)
    | _, _ => none

/-- The final parsing pass of process_track, indexer.py lines 57 to 72. -/
def process_track_intervals (cIdx sIdx eIdx : Nat) (reservoir : List String) :
    List (String × Int × Int) :=
  reservoir.filterMap (parseSampledLine cIdx sIdx eIdx)

/-- Constraint enforced by the rtree virtual table of the spatial store
(indexer.py line 87): a row (id, start, end) is accepted only when start ≤ end;
an insert violating it raises IntegrityError. -/
def rtreeOk (p : String × Int × Int) : Bool :=
  decide (p.2.1 ≤ p.2.2)

/-- The persistence step of build_index, indexer.py lines 103 to 117: each track
batch is inserted row by row and committed once per batch; an insert that violates
the rtree constraint raises an uncaught IntegrityError, so the offending batch is
never committed and the build crashes there, processing no further batch.
Returns the committed rows together with whether the build ran to completion. -/
def build_index_run : List (List (String × Int × Int)) → List (String × Int × Int) × Bool
  | [] => ([], true)
  | batch :: rest =>
    if batch.all rtreeOk then
      (batch ++ (build_index_run rest).1, (build_index_run rest).2)
    else ([], false)

/-! Interval Merge Calculator.

Modelled from the spec: the repository files under src do not contain the
indexed-query path, so the Interval Merge Calculator of spec section 4.1 is
embedded from the specification text: sort by start ascending; sweep once,
maintaining a running current block; for each next interval, if its start is
before the current end, extend the current end to the max of both ends, otherwise
flush the block length into the running total and start a new block; flush the
final block after the sweep. -/

/-- Modelled from the spec: ordering of sub-intervals by start, ascending. -/
def startLE (a b : Nat × Nat) : Prop := a.1 ≤ b.1

instance : DecidableRel startLE := fun a b => Nat.decLe a.1 b.1

instance : IsTotal (Nat × Nat) startLE := ⟨fun a b => Nat.le_total a.1 b.1⟩

instance : IsTrans (Nat × Nat) startLE := ⟨fun _ _ _ h₁ h₂ => Nat.le_trans h₁ h₂⟩

/-- Modelled from the spec: the sweep over the sorted tail, carrying the current
block [cs, ce): merge when the next start is before ce, otherwise flush. -/
def sweepFrom (cs ce : Nat) : List (Nat × Nat) → Nat
  | [] => ce - cs
  | (s, e) :: rest => if s < ce then sweepFrom cs (max ce e) rest else (ce - cs) + sweepFrom s e rest

/-- Modelled from the spec: start the sweep at the first sorted interval; zero
intervals give zero. -/
def sweep : List (Nat × Nat) → Nat
  | [] => 0
  | (s, e) :: rest => sweepFrom s e rest

/-- Modelled from the spec: the Interval Merge Calculator of spec section 4.1,
sort-by-start then one merging sweep, summing unique covered length. -/
def mergeCoverage (l : List (Nat × Nat)) : Nat :=
  sweep (List.insertionSort startLE l)

/-- The set of base pairs covered by a collection of half-open sub-intervals; the
reference meaning of unique coverage. -/
def unionIco : List (Nat × Nat) → Finset Nat
  | [] => ∅
  | p :: rest => Finset.Ico p.1 p.2 ∪ unionIco rest

/-! Concrete example data used by witnesses and counterexamples. -/

/-- Catalog track with no boundary-index entry at all. -/
def trackNoEntry : Track := ⟨"A", "Track A", none, "http://example/a"⟩

/-- Boundary index holding entries for tracks B and C but none for track A. -/
def exampleIndex1 : BoundaryIndex := [("B", [("1", (0, 10))]), ("C", [("2", (0, 5))])]

/-- Catalog track whose identifier appears in exampleIndex1. -/
def trackB1 : Track := ⟨"B", "Track B", none, "http://example/b"⟩

/-- Catalog track used for the query-validation evaluation. -/
def exampleTrack3 : Track := ⟨"T1", "Track 1", none, "http://example/t1"⟩

/-- One indexer track: default schema columns and a single sampled line. -/
def tracksExample6 : List (Nat × Nat × Nat × List String) := [(0, 1, 2, ["chr1\t5\t10"])]

/-- Catalog track used by the scanner-null witness. -/
def trackW9 : Track := ⟨"T9", "Track 9", none, "http://example/t9"⟩

/-- Invariant carried by every region the scan loop collects: half-open overlap
with the query range and a chromosome normalizing to the query chromosome. -/
def regionOk (normq : String) (qs qe : Int) (r : Region) : Prop :=
  (qs < r.stop ∧ r.start < qe) ∧ normChrQuery r.chrom = normq

/-- Catalog track used by the scanner-result witness. -/
def trackW10 : Track := ⟨"T10", "Track 10", some "ChIP", "http://example/t10"⟩

/-- The scanner result produced for trackW10 on the one-line file chr1 10 20. -/
def resW10 : ScanResult := ⟨"Track 10", "ChIP", 1, [⟨"chr1", 10, 20, []⟩]⟩

/-! Theorems.  Helper lemmas come first, then one theorem per claim with its
counterexamples and witnesses. -/

/-- Unfolding equation of the candidate loop: the collected candidates are the
kept tracks in catalog order, truncated after the first max(maxTracks, 1) of them
(one candidate is appended before the length check, so even maxTracks = 0 admits
one candidate). -/
lemma candLoop_eq (bi : BoundaryIndex) (nc : String) (qs qe : Int) (mt : Nat) :
    ∀ (l acc : List Track),
      candLoop bi nc qs qe mt acc l
        = acc ++ (l.filter fun t => keepTrack bi nc qs qe t.identifier).take (max (mt - acc.length) 1) := by
  intro l
  induction l with
  | nil => intro acc; simp [candLoop]
  | cons t rest ih =>
    intro acc
    simp only [candLoop, List.filter_cons]
    cases hk : keepTrack bi nc qs qe t.identifier with
    | false =>
      simp only [Bool.false_eq_true, if_false]
      rw [ih acc]
    | true =>
      simp only [if_true]
      by_cases hmt : mt ≤ acc.length + 1
      · rw [if_pos hmt]
        have h1 : max (mt - acc.length) 1 = 1 := by omega
        rw [h1]
        simp
      · rw [if_neg hmt]
        rw [ih (acc ++ [t])]
        have h2 : mt - (acc ++ [t]).length = mt - acc.length - 1 := by
          simp; omega
        have h3 : max (mt - acc.length - 1) 1 = mt - acc.length - 1 := by omega
        have h4 : max (mt - acc.length) 1 = (mt - acc.length - 1) + 1 := by omega
        rw [h2, h3, h4]
        simp [List.append_assoc]

/-- Claim C1, amended.  The candidate list of the prune-then-stream path consists
of the first max(maxTracks, 1) catalog tracks kept by the pruning test, where the
test keeps a track with NO boundary-index entry at all, drops a track whose entry
lacks the normalized query chromosome, and for a track with an entry [t_min, t_max]
keeps it exactly when neither end < t_min nor start > t_max.  (The original claim
said a track without any boundary-index entry is excluded; the code includes it.) -/
theorem C1_pruning_amended (bi : BoundaryIndex) (meta : List Track) (nc : String)
    (qs qe : Int) (mt : Nat) :
    candLoop bi nc qs qe mt [] meta
      = (meta.filter fun t => keepTrack bi nc qs qe t.identifier).take (max mt 1)
    ∧ (∀ tid, List.lookup tid bi = none → keepTrack bi nc qs qe tid = true)
    ∧ (∀ tid bounds, List.lookup tid bi = some bounds → List.lookup nc bounds = none →
        keepTrack bi nc qs qe tid = false)
    ∧ (∀ tid bounds t_min t_max, List.lookup tid bi = some bounds →
        List.lookup nc bounds = some (t_min, t_max) →
        (keepTrack bi nc qs qe tid = true ↔ ¬(qe < t_min ∨ qs > t_max))) := by
  refine ⟨?_, ?_, ?_, ?_⟩
  · rw [candLoop_eq]; simp
  · intro tid h; simp [keepTrack, h]
  · intro tid bounds h1 h2; simp [keepTrack, h1, h2]
  · intro tid bounds mn mx h1 h2
    simp [keepTrack, h1, h2, not_or]

/-- Claim C1, counterexample to the claim as stated: track A has no boundary-index
entry at all, yet the pruning loop INCLUDES it as a candidate instead of excluding
it. -/
theorem C1_counterexample :
    List.lookup "A" ([] : BoundaryIndex) = none
    ∧ candLoop [] (normChrQuery "chr1") 1000 2000 20 [] [trackNoEntry] = [trackNoEntry] :=
  ⟨rfl, by decide⟩

/-- Claim C1, witness: the amended theorem applied to a concrete index and catalog,
discharging each lookup hypothesis. -/
theorem C1_witness :
    candLoop exampleIndex1 "1" 20 30 20 [] [trackB1]
      = ([trackB1].filter fun t => keepTrack exampleIndex1 "1" 20 30 t.identifier).take (max 20 1)
    ∧ keepTrack exampleIndex1 "1" 20 30 "A" = true
    ∧ keepTrack exampleIndex1 "1" 20 30 "C" = false
    ∧ (keepTrack exampleIndex1 "1" 20 30 "B" = true ↔ ¬((30 : Int) < 0 ∨ (20 : Int) > 10)) := by
  have h := C1_pruning_amended exampleIndex1 [trackB1] "1" 20 30 20
  exact ⟨h.1, h.2.1 "A" (by decide), h.2.2.1 "C" [("2", (0, 5))] (by decide) (by decide),
    h.2.2.2 "B" [("1", (0, 10))] 0 10 (by decide) (by decide)⟩

/-- Claim C2: the boundary-index pruning test never skips a track whose persisted
[t_min, t_max] pair for the query chromosome truly intersects the half-open query
range [start, end): whenever some base x lies in both, the track is kept. -/
theorem C2_prune_exact (bi : BoundaryIndex) (tid : String) (bounds : ChromBounds) (nc : String)
    (qs qe t_min t_max : Int) (h1 : List.lookup tid bi = some bounds)
    (h2 : List.lookup nc bounds = some (t_min, t_max))
    (h3 : ∃ x : Int, t_min ≤ x ∧ x ≤ t_max ∧ qs ≤ x ∧ x < qe) :
    keepTrack bi nc qs qe tid = true := by
  obtain ⟨x, hx⟩ := h3
  simp [keepTrack, h1, h2]
  omega

/-- Claim C2, witness: the exactness theorem at a concrete index, query and
overlapping base. -/
theorem C2_witness :
    keepTrack [("T", [("1", ((0 : Int), 10))])] "1" 5 7 "T" = true :=
  C2_prune_exact [("T", [("1", (0, 10))])] "T" [("1", (0, 10))] "1" 5 7 0 10
    (by decide) (by decide) ⟨5, by omega⟩

/-- Claim C3, evaluation at the failing input: the query chr1 with start 10 and
end 5 has end ≤ start, yet find_overlaps performs pruning (one candidate), runs
the scanner over it, and even returns one matched track, instead of rejecting the
query before any work is dispatched. -/
theorem C3_no_validation_eval :
    (5 : Int) ≤ 10
    ∧ (find_overlaps [] [exampleTrack3] (fun _ => FetchOutcome.response 200 ["chr1\t0\t20"])
        "chr1" 10 5 20).tracks_indexed_as_candidates = 1
    ∧ (find_overlaps [] [exampleTrack3] (fun _ => FetchOutcome.response 200 ["chr1\t0\t20"])
        "chr1" 10 5 20).total_tracks_found = 1 :=
  ⟨by decide, by decide, by decide⟩

/-- Claim C4, evaluation at the failing input: the boundary-index builder strips
the chr prefix without lowercasing, so a file whose first data row names
chromosome Chr1 is persisted under the key Chr1; the backend normalizes the query
chromosome to 1, the lookup misses, and the pruning test excludes the track even
though its persisted range truly contains the query range. -/
theorem C4_normalization_mismatch :
    builderNormChr "Chr1" = "Chr1"
    ∧ normChrQuery "Chr1" = "1"
    ∧ normChrQuery "chr1" = "1"
    ∧ builderNormChr "Chr1" ≠ normChrQuery "Chr1"
    ∧ get_track_bounds 0 1 2 "T" ["Chr1\t5\t10"] = some ("T", [("Chr1", (5, 10000005))])
    ∧ keepTrack [("T", [("Chr1", (5, 10000005))])] (normChrQuery "chr1") 6 7 "T" = false :=
  ⟨by decide, by decide, by decide, by decide, by decide, by decide⟩

/-- Membership in the union of half-open intervals of a list. -/
lemma mem_unionIco {x : Nat} : ∀ {l : List (Nat × Nat)},
    x ∈ unionIco l ↔ ∃ p ∈ l, x ∈ Finset.Ico p.1 p.2 := by
  intro l
  induction l with
  | nil => simp [unionIco]
  | cons p rest ih => simp [unionIco, ih]

/-- The union of intervals is invariant under permutation of the list. -/
lemma unionIco_perm {l₁ l₂ : List (Nat × Nat)} (h : l₁.Perm l₂) : unionIco l₁ = unionIco l₂ := by
  ext x
  simp only [mem_unionIco]
  constructor
  · rintro ⟨p, hp, hx⟩; exact ⟨p, h.mem_iff.mp hp, hx⟩
  · rintro ⟨p, hp, hx⟩; exact ⟨p, h.mem_iff.mpr hp, hx⟩

/-- Correctness of the merging sweep on a start-sorted tail: starting from the
current block [cs, ce), the sweep total is the cardinality of the union of the
block and all remaining intervals, provided every remaining start is at least
cs. -/
lemma sweepFrom_eq : ∀ (l : List (Nat × Nat)) (cs ce : Nat), l.Sorted startLE →
    (∀ p ∈ l, cs ≤ p.1) → sweepFrom cs ce l = (Finset.Ico cs ce ∪ unionIco l).card := by
  intro l
  induction l with
  | nil => intro cs ce _ _; simp [sweepFrom, unionIco, Nat.card_Ico]
  | cons p rest ih =>
    intro cs ce hsort hcs
    obtain ⟨s, e⟩ := p
    have hrest := (List.sorted_cons.mp hsort).2
    have hhead := (List.sorted_cons.mp hsort).1
    have hs : cs ≤ s := hcs (s, e) (by simp)
    by_cases hlt : s < ce
    · have hle : ∀ q ∈ rest, cs ≤ q.1 := fun q hq => le_trans hs (hhead q hq)
      rw [sweepFrom, if_pos hlt, ih cs (max ce e) hrest hle]
      have hico : Finset.Ico cs (max ce e) = Finset.Ico cs ce ∪ Finset.Ico s e := by
        ext x
        simp only [Finset.mem_Ico, Finset.mem_union]
        omega
      rw [hico, unionIco, Finset.union_assoc]
    · have hce : ce ≤ s := Nat.le_of_not_lt hlt
      have hle : ∀ q ∈ rest, s ≤ q.1 := fun q hq => hhead q hq
      rw [sweepFrom, if_neg hlt, ih s e hrest hle]
      have hdisj : Disjoint (Finset.Ico cs ce) (Finset.Ico s e ∪ unionIco rest) := by
        rw [Finset.disjoint_left]
        intro x hx hmem
        have hxce : x < ce := (Finset.mem_Ico.mp hx).2
        rcases Finset.mem_union.mp hmem with hA | hB
        · have := (Finset.mem_Ico.mp hA).1; omega
        · obtain ⟨q, hq, hxq⟩ := mem_unionIco.mp hB
          have := (Finset.mem_Ico.mp hxq).1
          have := hle q hq
          omega
      rw [unionIco, ← Finset.union_assoc]
      rw [Finset.union_assoc]
      rw [Finset.card_union_of_disjoint hdisj, Nat.card_Ico]

/-- The merge calculator computes exactly the cardinality of the union of the
half-open input intervals. -/
lemma mergeCoverage_eq (l : List (Nat × Nat)) : mergeCoverage l = (unionIco l).card := by
  have hperm : (List.insertionSort startLE l).Perm l := List.perm_insertionSort startLE l
  have hsort : (List.insertionSort startLE l).Sorted startLE := List.sorted_insertionSort startLE l
  rw [mergeCoverage, ← unionIco_perm hperm]
  cases hsl : List.insertionSort startLE l with
  | nil => simp [sweep, unionIco]
  | cons p rest =>
    obtain ⟨s, e⟩ := p
    rw [hsl] at hsort
    have hrest := (List.sorted_cons.mp hsort).2
    have hhead := (List.sorted_cons.mp hsort).1
    rw [sweep, sweepFrom_eq rest s e hrest (fun q hq => hhead q hq), unionIco]

/-- Claim C5: the Interval Merge Calculator, applied to any unordered collection
of sub-intervals, returns the number of unique base pairs covered (the
cardinality of the union of the half-open intervals); zero intervals give 0, a
single interval gives its length, and the inputs (10,20), (15,25), (30,40)
give 25. -/
theorem C5_mergeCoverage_spec :
    (∀ l : List (Nat × Nat), mergeCoverage l = (unionIco l).card)
    ∧ mergeCoverage [] = 0
    ∧ (∀ s e : Nat, mergeCoverage [(s, e)] = e - s)
    ∧ mergeCoverage [(10, 20), (15, 25), (30, 40)] = 25 := by
  refine ⟨mergeCoverage_eq, rfl, ?_, by decide⟩
  intro s e
  simp [mergeCoverage, List.insertionSort, List.orderedInsert, sweep, sweepFrom]

/-- Every row the build commits passed the rtree constraint. -/
lemma build_index_run_le : ∀ (bs : List (List (String × Int × Int))),
    ∀ p ∈ (build_index_run bs).1, p.2.1 ≤ p.2.2 := by
  intro bs
  induction bs with
  | nil => simp [build_index_run]
  | cons b rest ih =>
    intro p hp
    rw [build_index_run] at hp
    by_cases hb : b.all rtreeOk = true
    · rw [if_pos hb] at hp
      rcases List.mem_append.mp hp with h | h
      · have := List.all_eq_true.mp hb p h
        simpa [rtreeOk] using this
      · exact ih p h
    · rw [if_neg hb] at hp
      simp at hp

/-- A build whose batches all satisfy the rtree constraint runs to completion. -/
lemma build_index_run_complete : ∀ (bs : List (List (String × Int × Int))),
    (∀ b ∈ bs, ∀ p ∈ b, p.2.1 ≤ p.2.2) → (build_index_run bs).2 = true := by
  intro bs
  induction bs with
  | nil => intro _; rfl
  | cons b rest ih =>
    intro h
    have hb : b.all rtreeOk = true := by
      rw [List.all_eq_true]
      intro p hp
      simpa [rtreeOk] using h b (by simp) p hp
    rw [build_index_run, if_pos hb]
    exact ih fun b' hb' p hp => h b' (by simp [hb']) p hp

/-- Claim C6, counterexample to the claim as stated: a sampled line with equal
coordinates parses to the zero-length interval (100, 100), which satisfies the
rtree constraint 100 ≤ 100 and is therefore committed to the spatial store, yet
it violates the strict invariant start < end. -/
theorem C6_counterexample :
    parseSampledLine 0 1 2 "chr1\t100\t100" = some ("chr1", 100, 100)
    ∧ build_index_run [process_track_intervals 0 1 2 ["chr1\t100\t100"]]
        = ([("chr1", 100, 100)], true)
    ∧ ¬((100 : Int) < 100) :=
  ⟨by decide, by decide, by decide⟩

/-- Claim C6, amended.  The spatial store enforces start ≤ end, not the strict
start < end: every committed interval satisfies start ≤ end; a batch whose every
parsed row satisfies the constraint means the build completes; and a batch holding
a row with start > end commits nothing and aborts the build (uncaught
IntegrityError), so such a row is never persisted — but zero-length rows with
start = end are persisted. -/
theorem C6_amended (tracks : List (Nat × Nat × Nat × List String)) :
    (∀ p ∈ (build_index_run (tracks.map fun t =>
        process_track_intervals t.1 t.2.1 t.2.2.1 t.2.2.2)).1, p.2.1 ≤ p.2.2)
    ∧ ((∀ t ∈ tracks, ∀ p ∈ process_track_intervals t.1 t.2.1 t.2.2.1 t.2.2.2, p.2.1 ≤ p.2.2) →
        (build_index_run (tracks.map fun t =>
          process_track_intervals t.1 t.2.1 t.2.2.1 t.2.2.2)).2 = true)
    ∧ (∀ (batch : List (String × Int × Int)) (rest : List (List (String × Int × Int))),
        (∃ p ∈ batch, ¬ p.2.1 ≤ p.2.2) → build_index_run (batch :: rest) = ([], false)) := by
  refine ⟨build_index_run_le _, ?_, ?_⟩
  · intro h
    refine build_index_run_complete _ ?_
    intro b hb p hp
    rw [List.mem_map] at hb
    obtain ⟨t, ht, rfl⟩ := hb
    exact h t ht p hp
  · intro batch rest hex
    obtain ⟨p, hp, hnle⟩ := hex
    have hb : ¬ batch.all rtreeOk = true := by
      rw [List.all_eq_true]
      intro hall
      exact hnle (by simpa [rtreeOk] using hall p hp)
    rw [build_index_run, if_neg hb]

/-- Claim C6, witness: the amended theorem at a one-track catalog whose single
sampled line parses to the interval (5, 10), discharging the all-rows-valid
hypothesis concretely; the persisted row satisfies the non-strict bound and the
build completes. -/
theorem C6_witness :
    (5 : Int) ≤ 10
    ∧ (build_index_run (tracksExample6.map fun t =>
        process_track_intervals t.1 t.2.1 t.2.2.1 t.2.2.2)).2 = true := by
  have h := C6_amended tracksExample6
  refine ⟨h.1 ("chr1", 5, 10) (by decide), h.2.1 ?_⟩
  intro t ht p hp
  simp only [tracksExample6, List.mem_singleton] at ht
  subst ht
  have he : process_track_intervals 0 1 2 ["chr1\t5\t10"] = [("chr1", 5, 10)] := by decide
  rw [he] at hp
  simp only [List.mem_singleton] at hp
  subst hp
  decide

/-- Unfolding equation of the reservoir loop on the empty stream. -/
lemma reservoirLoop_nil (g : Nat → Nat) (i : Nat) (res : List String) (tr : List Nat) :
    reservoirLoop g i res tr [] = (res, tr) := rfl

/-- Unfolding equation of the reservoir loop on one line. -/
lemma reservoirLoop_cons (g : Nat → Nat) (i : Nat) (res : List String) (tr : List Nat)
    (line : String) (rest : List String) :
    reservoirLoop g i res tr (line :: rest) =
      if isIndexerHeader line then reservoirLoop g (i + 1) res tr rest
      else if res.length < RESERVOIR_SIZE then reservoirLoop g (i + 1) (res ++ [line]) tr rest
      else if g i < RESERVOIR_SIZE then
        reservoirLoop g (i + 1) (res.set (g i) line) (tr ++ [i]) rest
      else reservoirLoop g (i + 1) res (tr ++ [i]) rest := rfl

/-- Filling phase of the reservoir: while capacity remains, data lines are
appended one by one and no random draw happens. -/
lemma reservoirFill (g : Nat → Nat) : ∀ (n i : Nat) (res : List String) (tr : List Nat)
    (rest : List String), res.length + n ≤ RESERVOIR_SIZE →
    reservoirLoop g i res tr (List.replicate n "a" ++ rest)
      = reservoirLoop g (i + n) (res ++ List.replicate n "a") tr rest := by
  intro n
  induction n with
  | zero => intro i res tr rest _; simp
  | succ n ih =>
    intro i res tr rest h
    rw [List.replicate_succ, List.cons_append, reservoirLoop_cons]
    rw [if_neg (show ¬ isIndexerHeader "a" = true by decide)]
    rw [if_pos (show res.length < RESERVOIR_SIZE by omega)]
    rw [ih (i + 1) (res ++ ["a"]) tr rest (by simp; omega)]
    have harith : i + 1 + n = i + (n + 1) := by omega
    rw [harith]
    simp only [List.append_assoc, List.singleton_append, List.replicate_succ]

/-- Claim C7, evaluation at the failing input: on a stream made of one header line
followed by 1001 data records (capacity 1000), the single randint call receives
the upper bound 1001 — the enumerate index of the line, counting the skipped
header — although the record being processed is the 1001st record, of 0-based
record index 1000, so the claimed draw range [0, i] over records does not hold. -/
theorem C7_randint_bound_eval :
    (reservoirLoop (fun _ => 0) 0 [] [] ("#header" :: (List.replicate 1000 "a" ++ ["b"]))).2 = [1001]
    ∧ (("#header" :: List.replicate 1000 "a").filter (fun l => !isIndexerHeader l)).length = 1000 := by
  constructor
  · rw [reservoirLoop_cons]
    rw [if_pos (show isIndexerHeader "#header" = true by decide)]
    rw [reservoirFill (fun _ => 0) 1000 1 [] [] ["b"] (by decide)]
    simp only [List.nil_append]
    rw [reservoirLoop_cons]
    rw [if_neg (show ¬ isIndexerHeader "b" = true by decide)]
    rw [if_neg (show ¬ (List.replicate 1000 "a").length < RESERVOIR_SIZE by
      rw [List.length_replicate]; decide)]
    rw [if_pos (show (fun _ : Nat => 0) 1001 < RESERVOIR_SIZE by decide)]
    rw [reservoirLoop_nil]
    simp
  · have hf : ("#header" :: List.replicate 1000 "a").filter (fun l => !isIndexerHeader l)
        = List.replicate 1000 "a" := by
      rw [List.filter_cons]
      rw [if_neg (show ¬ (!isIndexerHeader "#header") = true by decide)]
      apply List.filter_eq_self.mpr
      intro a ha
      rw [List.eq_of_mem_replicate ha]
      decide
    rw [hf, List.length_replicate]

/-- Unfolding equation of the scan loop on the empty stream. -/
lemma scanLoop_nil (normq : String) (qs qe : Int) (i : Nat) (acc : List Region) :
    scanLoop normq qs qe i acc [] = (acc, 0) := rfl

/-- Unfolding equation of the scan loop on one line. -/
lemma scanLoop_cons (normq : String) (qs qe : Int) (i : Nat) (acc : List Region)
    (line : String) (rest : List String) :
    scanLoop normq qs qe i acc (line :: rest) =
      if 20000 < i then (acc, 0)
      else if isScannerHeader line then addExamined (scanLoop normq qs qe (i + 1) acc rest)
      else if (splitFields line).length < 3 then addExamined (scanLoop normq qs qe (i + 1) acc rest)
      else if normChrQuery ((splitFields line).getD 0 "") ≠ normq then
        addExamined (scanLoop normq qs qe (i + 1) acc rest)
      else
        match pyInt ((splitFields line).getD 1 ""), pyInt ((splitFields line).getD 2 "") with
        | some t_start, some t_end =>
          if qe < t_start then (acc, 1)
          else if check_overlap qs qe t_start t_end then
            if 10 ≤ acc.length + 1 then (acc ++ [mkRegion line t_start t_end], 1)
            else addExamined (scanLoop normq qs qe (i + 1) (acc ++ [mkRegion line t_start t_end]) rest)
          else addExamined (scanLoop normq qs qe (i + 1) acc rest)
        | _, _ => addExamined (scanLoop normq qs qe (i + 1) acc rest) := rfl

/-- Examined-line count of the scan loop over a stream of identical data records
that match nothing: every line with enumerate index up to and including 20000 is
examined, so the count is min n (20001 - i). -/
lemma scanExamined_skip : ∀ (n i : Nat) (acc : List Region),
    (scanLoop "1" 0 1000000 i acc (List.replicate n "9\t1\t2")).2 = min n (20001 - i) := by
  intro n
  induction n with
  | zero => intro i acc; simp [scanLoop_nil]
  | succ n ih =>
    intro i acc
    rw [List.replicate_succ, scanLoop_cons]
    by_cases hi : 20000 < i
    · rw [if_pos hi]
      simp
      omega
    · rw [if_neg hi]
      rw [if_neg (show ¬ isScannerHeader "9\t1\t2" = true by decide)]
      rw [if_neg (show ¬ (splitFields "9\t1\t2").length < 3 by decide)]
      rw [if_pos (show normChrQuery ((splitFields "9\t1\t2").getD 0 "") ≠ "1" by decide)]
      simp only [addExamined, ih (i + 1) acc]
      omega

/-- Claim C8, evaluation at the failing input: on a track file holding 20002 data
records the scanner examines 20001 of them — the loop breaks only once the
enumerate index EXCEEDS 20000 — one more than the claimed cap of 20000. -/
theorem C8_examined_count_eval :
    (scanLoop "1" 0 1000000 0 [] (List.replicate 20002 "9\t1\t2")).2 = 20001 := by
  rw [scanExamined_skip]
  omega

/-- Claim C9: the streaming scanner returns null in each of the three cases — a
network error during the fetch, a non-success HTTP status, and a scan with zero
matching records — and, being a total function into an option type, never
propagates an exception to its caller. -/
theorem C9_scanner_null (track : Track) (chrq : String) (qs qe : Int) (status : Nat)
    (lines : List String) :
    fetch_and_parse_stream track chrq qs qe FetchOutcome.netError = none
    ∧ (status ≠ 200 → fetch_and_parse_stream track chrq qs qe (FetchOutcome.response status lines) = none)
    ∧ ((scanLoop (normChrQuery chrq) qs qe 0 [] lines).1 = [] →
        fetch_and_parse_stream track chrq qs qe (FetchOutcome.response status lines) = none) := by
  refine ⟨rfl, ?_, ?_⟩
  · intro h
    simp [fetch_and_parse_stream, h]
  · intro h
    by_cases hs : status = 200
    · subst hs
      simp [fetch_and_parse_stream, h]
    · simp [fetch_and_parse_stream, hs]

/-- Claim C9, witness: the three null cases at concrete inputs — a network error,
HTTP status 404, and a 200 response whose file yields zero matches. -/
theorem C9_witness :
    fetch_and_parse_stream trackW9 "chr1" 0 100 FetchOutcome.netError = none
    ∧ fetch_and_parse_stream trackW9 "chr1" 0 100 (FetchOutcome.response 404 ["chr1\t1\t2"]) = none
    ∧ fetch_and_parse_stream trackW9 "chr1" 0 100 (FetchOutcome.response 200 []) = none := by
  have h1 := C9_scanner_null trackW9 "chr1" 0 100 404 ["chr1\t1\t2"]
  have h2 := C9_scanner_null trackW9 "chr1" 0 100 200 []
  exact ⟨h1.1, h1.2.1 (by decide), h2.2.2 (by decide)⟩

/-- Every region the scan loop collects beyond an already-sound accumulator
satisfies the overlap-and-chromosome invariant. -/
lemma scanLoop_mem (normq : String) (qs qe : Int) :
    ∀ (lines : List String) (i : Nat) (acc : List Region),
      (∀ r ∈ acc, regionOk normq qs qe r) →
      ∀ r ∈ (scanLoop normq qs qe i acc lines).1, regionOk normq qs qe r := by
  intro lines
  induction lines with
  | nil => intro i acc hacc; rw [scanLoop_nil]; exact hacc
  | cons line rest ih =>
    intro i acc hacc
    rw [scanLoop_cons]
    split
    · exact hacc
    · split
      · intro r hr; exact ih (i + 1) acc hacc r hr
      · split
        · intro r hr; exact ih (i + 1) acc hacc r hr
        · split
          · intro r hr; exact ih (i + 1) acc hacc r hr
          · rename_i hne
            split
            · rename_i t_start t_end hp1 hp2
              split
              · exact hacc
              · rename_i hqe
                split
                · rename_i hco
                  have hmk : regionOk normq qs qe (mkRegion line t_start t_end) := by
                    simp only [check_overlap, Bool.and_eq_true, decide_eq_true_eq] at hco
                    refine ⟨⟨hco.1, hco.2⟩, ?_⟩
                    simp only [mkRegion]
                    exact not_ne_iff.mp hne
                  split
                  · intro r hr
                    rcases List.mem_append.mp hr with h | h
                    · exact hacc r h
                    · rw [List.mem_singleton.mp h]; exact hmk
                  · intro r hr
                    refine ih (i + 1) (acc ++ [mkRegion line t_start t_end]) ?_ r hr
                    intro r' hr'
                    rcases List.mem_append.mp hr' with h | h
                    · exact hacc r' h
                    · rw [List.mem_singleton.mp h]; exact hmk
                · intro r hr; exact ih (i + 1) acc hacc r hr
            · intro r hr; exact ih (i + 1) acc hacc r hr

/-- The scan loop never grows the match list past ten regions: matches only stop
being collected once the list reaches ten. -/
lemma scanLoop_len (normq : String) (qs qe : Int) :
    ∀ (lines : List String) (i : Nat) (acc : List Region), acc.length ≤ 9 →
      (scanLoop normq qs qe i acc lines).1.length ≤ 10 := by
  intro lines
  induction lines with
  | nil =>
    intro i acc hacc
    rw [scanLoop_nil]
    simp
    omega
  | cons line rest ih =>
    intro i acc hacc
    rw [scanLoop_cons]
    repeat' split
    all_goals try exact ih (i + 1) acc hacc
    all_goals try (simp; omega)
    all_goals (refine ih (i + 1) _ ?_; simp; omega)

/-- Claim C10: whenever the streaming scanner returns a non-null result, the
result holds between 1 and 10 matched intervals, its overlap_count equals the
length of its results list, and every returned interval overlaps the half-open
query range with a chromosome normalizing to the query chromosome. -/
theorem C10_result_invariants (track : Track) (chrq : String) (qs qe : Int)
    (outcome : FetchOutcome) (res : ScanResult)
    (h : fetch_and_parse_stream track chrq qs qe outcome = some res) :
    1 ≤ res.results.length ∧ res.results.length ≤ 10
    ∧ res.overlap_count = res.results.length
    ∧ ∀ r ∈ res.results,
        (qs < r.stop ∧ r.start < qe) ∧ normChrQuery r.chrom = normChrQuery chrq := by
  cases outcome with
  | netError => exact absurd h (by simp [fetch_and_parse_stream])
  | response status lines =>
    by_cases hs : status = 200
    · subst hs
      rw [fetch_and_parse_stream] at h
      rw [if_neg (show ¬ (200 : Nat) ≠ 200 by simp)] at h
      cases hsl : (scanLoop (normChrQuery chrq) qs qe 0 [] lines).1 with
      | nil => rw [hsl] at h; cases h
      | cons r rs =>
        rw [hsl] at h
        injection h with h'
        subst h'
        have hlen : (r :: rs).length ≤ 10 := by
          rw [← hsl]
          exact scanLoop_len (normChrQuery chrq) qs qe lines 0 [] (by simp)
        have hmem : ∀ x ∈ r :: rs, regionOk (normChrQuery chrq) qs qe x := by
          rw [← hsl]
          exact scanLoop_mem (normChrQuery chrq) qs qe lines 0 [] (by simp)
        refine ⟨by simp, hlen, rfl, ?_⟩
        intro x hx
        exact hmem x hx
    · rw [fetch_and_parse_stream, if_pos hs] at h
      cases h

/-- Claim C10, witness: a 200 response whose single record matches the query
produces a non-null result, and the invariants hold for it, including the
overlap-and-chromosome fact instantiated at the one returned region. -/
theorem C10_witness :
    fetch_and_parse_stream trackW10 "chr1" 0 100 (FetchOutcome.response 200 ["chr1\t10\t20"])
        = some resW10
    ∧ 1 ≤ resW10.results.length ∧ resW10.results.length ≤ 10
    ∧ resW10.overlap_count = resW10.results.length
    ∧ (((0 : Int) < 20 ∧ (10 : Int) < 100) ∧ normChrQuery "chr1" = normChrQuery "chr1") := by
  have he : fetch_and_parse_stream trackW10 "chr1" 0 100
      (FetchOutcome.response 200 ["chr1\t10\t20"]) = some resW10 := by decide
  have h := C10_result_invariants trackW10 "chr1" 0 100
    (FetchOutcome.response 200 ["chr1\t10\t20"]) resW10 he
  exact ⟨he, h.1, h.2.1, h.2.2.1, h.2.2.2 ⟨"chr1", 10, 20, []⟩ (by simp [resW10])⟩
